import Mathlib

/-!
Verification of the BowlingFun throw lifecycle: a shallow embedding of the
core game logic of `src/game.js` (state machine, launch calculator, settle
detector, pin-fall scoring engine, session resets) together with theorems
about the specification's claims.

Modelling conventions:
* Times (milliseconds from `performance.now()`), velocities and pin tilt
  observations coming from the physics world are rational numbers, so the
  embedded logic stays executable and decidable.
* Quantities produced by trigonometry in the source (the oscillating aim
  angle and the launch direction) are real numbers.
* The physics world is an external collaborator: per-tick pin orientation
  dot products and ball velocities are inputs of the tick event, while the
  writes the core issues to the physics world (zeroed velocities,
  repositions, the launch impulse) are recorded in the state.
* `setTimeout` callbacks are modelled as pending deadlines in the state;
  an event may fire a pending callback once its deadline has passed, and
  `clearTimeout` removes the deadline so the callback can never fire.
-/

namespace BowlingFun

/-- 3-component vector over the rationals (positions, velocities). -/
structure Vec3Q where
  x : ℚ
  y : ℚ
  z : ℚ
deriving DecidableEq, Repr

/-- `BABYLON.Vector3.lengthSquared()` for rational vectors. -/
def Vec3Q.lengthSquared (v : Vec3Q) : ℚ := v.x ^ 2 + v.y ^ 2 + v.z ^ 2

/-- `BABYLON.Vector3.Zero()`. -/
def Vec3Q.zero : Vec3Q := ⟨0, 0, 0⟩

/-- 3-component vector over the reals (the launch direction computed with
`Math.sin` / `Math.cos`). -/
structure Vec3R where
  x : ℝ
  y : ℝ
  z : ℝ

/-- Euclidean length of a real vector (`BABYLON.Vector3.length()`). -/
noncomputable def Vec3R.len (v : Vec3R) : ℝ := Real.sqrt (v.x ^ 2 + v.y ^ 2 + v.z ^ 2)

/-- `BABYLON.Vector3.scale`. -/
def Vec3R.scale (v : Vec3R) (s : ℝ) : Vec3R := ⟨v.x * s, v.y * s, v.z * s⟩

/-- `BABYLON.Vector3.normalize()`: scales by the reciprocal length, leaving a
zero-length vector unchanged. -/
noncomputable def Vec3R.normalize (v : Vec3R) : Vec3R :=
  if v.len = 0 then v else v.scale (1 / v.len)

/-! ### Constants from `game.js` -/

/-- `PIN_FALLEN_THRESHOLD = 0.7`: dot-product threshold below which a pin
counts as fallen. -/
def PIN_FALLEN_THRESHOLD : ℚ := 7 / 10

/-- `MIN_LAUNCH_FORCE = 20`. -/
def MIN_LAUNCH_FORCE : ℚ := 20

/-- `MAX_LAUNCH_FORCE = 150`. -/
def MAX_LAUNCH_FORCE : ℚ := 150

/-- `MAX_CHARGE_TIME = 1500` milliseconds. -/
def MAX_CHARGE_TIME : ℚ := 1500

/-- `ARROW_OSCILLATION_SPEED = 1.5`. -/
def ARROW_OSCILLATION_SPEED : ℚ := 3 / 2

/-- `ARROW_MAX_ANGLE = Math.PI / 6`. -/
noncomputable def ARROW_MAX_ANGLE : ℝ := Real.pi / 6

/-- `ARROW_LENGTH_MIN = 1.5`. -/
def ARROW_LENGTH_MIN : ℚ := 3 / 2

/-- `ARROW_LENGTH_MAX = 4.0`. -/
def ARROW_LENGTH_MAX : ℚ := 4

/-- `BALL_START_POS = (0, BALL_START_Y, -5)` with
`BALL_START_Y = LANE_TOP_Y + BALL_RADIUS = 0.05 + 0.4 = 0.45`. -/
def BALL_START_POS : Vec3Q := ⟨0, 9 / 20, -5⟩

/-- Start pose of the direction arrow: `BALL_START_POS` shifted by
`z += BALL_RADIUS + 0.2` and `y += 0.1` (see `createDirectionArrow` and
`resetForNextThrow`). -/
def ARROW_START_POS : Vec3Q := ⟨0, 11 / 20, -22 / 5⟩

/-- The ten pin rack positions from `pinPositions`
(`PIN_START_Y = 0.05 + 0.5 = 0.55`). -/
def pinPositions : List Vec3Q :=
  [⟨-3/2, 11/20, 20⟩, ⟨-1/2, 11/20, 20⟩, ⟨1/2, 11/20, 20⟩, ⟨3/2, 11/20, 20⟩,
   ⟨-1, 11/20, 19⟩, ⟨0, 11/20, 19⟩, ⟨1, 11/20, 19⟩,
   ⟨-1/2, 11/20, 18⟩, ⟨1/2, 11/20, 18⟩,
   ⟨0, 11/20, 17⟩]

/-- The squared-velocity settle threshold `0.1` local to `isBallStopped`. -/
def STOP_THRESHOLD : ℚ := 1 / 10

/-! ### Launch calculator (`updateArrowCharging` and the keyup handler) -/

/-- the charge fraction `Math.min(chargedTime / MAX_CHARGE_TIME, 1.0)` in
`updateArrowCharging`. -/
def chargeFraction (chargedTime : ℚ) : ℚ := min (chargedTime / MAX_CHARGE_TIME) 1

/-- `launchPower = MIN_LAUNCH_FORCE + (MAX_LAUNCH_FORCE - MIN_LAUNCH_FORCE) *` fraction. -/
def launchPowerOf (chargedTime : ℚ) : ℚ :=
  MIN_LAUNCH_FORCE + (MAX_LAUNCH_FORCE - MIN_LAUNCH_FORCE) * chargeFraction chargedTime

/-- `arrow.scaling.y = ARROW_LENGTH_MIN + (ARROW_LENGTH_MAX - ARROW_LENGTH_MIN) *` fraction. -/
def arrowScaleOf (chargedTime : ℚ) : ℚ :=
  ARROW_LENGTH_MIN + (ARROW_LENGTH_MAX - ARROW_LENGTH_MIN) * chargeFraction chargedTime

/-- `currentAimAngle = Math.sin(time * ARROW_OSCILLATION_SPEED) * ARROW_MAX_ANGLE`
in `updateArrowAiming`, where `time` is absolute elapsed seconds. -/
noncomputable def oscillation (timeSeconds : ℚ) : ℝ :=
  Real.sin ((timeSeconds : ℝ) * (ARROW_OSCILLATION_SPEED : ℝ)) * ARROW_MAX_ANGLE

/-- The launch direction built in the keyup handler:
`new BABYLON.Vector3(-Math.sin(a), 0, Math.cos(a)).normalize()`. -/
noncomputable def launchDirection (a : ℝ) : Vec3R :=
  Vec3R.normalize ⟨-Real.sin a, 0, Real.cos a⟩

/-! ### Pin-fall scoring engine (`checkFallenPins`) -/

/-- Per-tick observation of one pin, as read from the scene and the physics
world: whether the mesh is present (`pin`), whether it has a physics body
(`pin.physicsImpostor`), and the dot product of its normalized world-space
up-vector with `BABYLON.Axis.Y`. -/
structure PinObs where
  alive : Bool
  impostor : Bool
  dot : ℚ
deriving DecidableEq, Repr

/-- The guard of the scoring loop body for the pin at index `n`:
`pin && pin.physicsImpostor && !fallenPinIndicesThisThrow.has(index)`
together with `dotProduct < PIN_FALLEN_THRESHOLD`. -/
def pinFalls (fallen : Finset ℕ) (n : ℕ) (o : PinObs) : Bool :=
  o.alive && o.impostor && decide (n ∉ fallen) && decide (o.dot < PIN_FALLEN_THRESHOLD)

/-- The part of the game state written by `checkFallenPins`: the running
`score` and the per-throw `fallenPinIndicesThisThrow` set. -/
structure ScoreSt where
  score : ℕ
  fallen : Finset ℕ
deriving DecidableEq

/-- The `pins.forEach((pin, index) => ...)` loop of `checkFallenPins`,
starting from index `n`: each qualifying pin increments the score by one and
inserts its index into the fallen set, and later pins observe the updated
set. -/
def scorePins (n : ℕ) (obs : List PinObs) (s : ScoreSt) : ScoreSt :=
  match obs with
  | [] => s
  | o :: rest =>
      scorePins (n + 1) rest
        (if pinFalls s.fallen n o then ⟨s.score + 1, insert n s.fallen⟩ else s)

/-- The indices of the pins a single `checkFallenPins` pass newly detects as
fallen, computed against the fallen set as it stood at the start of the
pass. -/
def newlyFallen (fallen : Finset ℕ) (n : ℕ) (obs : List PinObs) : List ℕ :=
  match obs with
  | [] => []
  | o :: rest =>
      if pinFalls fallen n o then n :: newlyFallen fallen (n + 1) rest
      else newlyFallen fallen (n + 1) rest

/-! ### Game state

The mutable module-level state of `game.js`, together with the pending
`setTimeout` deadlines. -/

/-- The `GameState` enumeration. `ENDED` is declared but unreachable. -/
inductive Phase where
  | AIMING
  | CHARGING
  | BALL_ROLLING
  | RESETTING
  | ENDED
deriving DecidableEq, Repr

/-- The bowling ball as the core last commanded it: position, the
velocities last written through `setLinearVelocity` / `setAngularVelocity`,
and whether it has a physics impostor. -/
structure Ball where
  pos : Vec3Q
  linVel : Vec3Q
  angVel : Vec3Q
  impostor : Bool
deriving DecidableEq, Repr

/-- The direction arrow's core-visible state: `rotation.z` (the aim angle),
`scaling.y` (the charge-length visual), position and visibility. -/
structure Arrow where
  rotZ : ℝ
  scaleY : ℚ
  pos : Vec3Q
  visible : Bool

/-- A pin as created by `resetGame`: its rack position and physics body. -/
structure PinSt where
  pos : Vec3Q
  impostor : Bool
deriving DecidableEq, Repr

/-- The module-level mutable state of `game.js`.

`lastImpulse` records the vector most recently passed to
`applyImpulse` at launch (`none` when the launch found no ball/impostor).
`resetTimer` is `metadata.resetTimer`: the deadline of the pending 500 ms
settle callback, if one is outstanding.  `aimTimers` are the deadlines of
pending 100 ms `RESETTING → AIMING` callbacks scheduled by
`resetForNextThrow` (the source keeps no handle to them). -/
structure Game where
  phase : Phase
  score : ℕ
  fallen : Finset ℕ
  aimAngle : ℝ
  chargeStartTime : ℚ
  launchPower : ℚ
  ball : Option Ball
  pins : List PinSt
  arrow : Option Arrow
  lastImpulse : Option Vec3R
  resetTimer : Option ℚ
  aimTimers : List ℚ

/-- `isBallStopped()`: `true` when the ball or its impostor is missing;
otherwise requires both velocity accessors to return non-null vectors whose
squared lengths are below the threshold (a null vector makes the chained
`&&` falsy). -/
def isBallStopped (ball : Option Ball) (lv av : Option Vec3Q) : Bool :=
  match ball with
  | none => true
  | some b =>
      if b.impostor = false then true
      else
        match lv, av with
        | some l, some a =>
            decide (l.lengthSquared < STOP_THRESHOLD) &&
            decide (a.lengthSquared < STOP_THRESHOLD)
        | _, _ => false

/-- `checkFallenPins()`: one scoring pass over the pin array, with the
per-pin physics observations `obs` (one entry per pin in the scene). -/
def checkFallenPinsG (st : Game) (obs : List PinObs) : Game :=
  let r := scorePins 0 (obs.take st.pins.length) ⟨st.score, st.fallen⟩
  { st with score := r.score, fallen := r.fallen }

/-- `updateArrowCharging(directionArrow, chargedTime)` guarded by
`if (directionArrow)`: sets the global `launchPower` and the arrow's length
visual only when the arrow exists. -/
def applyCharging (chargedTime : ℚ) (st : Game) : Game :=
  match st.arrow with
  | some a =>
      { st with launchPower := launchPowerOf chargedTime,
                arrow := some { a with scaleY := arrowScaleOf chargedTime } }
  | none => st

/-- The `AIMING` branch of the render loop: show the arrow and recompute the
aim angle from absolute elapsed seconds. -/
noncomputable def tickAiming (now : ℚ) (st : Game) : Game :=
  match st.arrow with
  | some a =>
      { st with aimAngle := oscillation (now / 1000),
                arrow := some { a with visible := true, rotZ := oscillation (now / 1000) } }
  | none => st

/-- The `CHARGING` branch of the render loop:
`chargedTime = now - chargeStartTime` then `updateArrowCharging`. -/
def tickCharging (now : ℚ) (st : Game) : Game :=
  applyCharging (now - st.chargeStartTime) st

/-- `directionArrow.isVisible = false` (rolling branch). -/
def hideArrow : Option Arrow → Option Arrow
  | none => none
  | some a => some { a with visible := false }

/-- The `BALL_ROLLING` branch of the render loop: hide the arrow, run
`checkFallenPins`, then the settle detector — when the ball reads stopped
and no settle timer is outstanding, schedule one 500 ms out; when it reads
moving, cancel any pending settle timer. -/
def tickRolling (now : ℚ) (obs : List PinObs) (lv av : Option Vec3Q) (st : Game) : Game :=
  let st1 := { st with arrow := hideArrow st.arrow }
  let st2 := checkFallenPinsG st1 obs
  if isBallStopped st2.ball lv av then
    if st2.resetTimer = none then { st2 with resetTimer := some (now + 500) } else st2
  else
    { st2 with resetTimer := none }

/-- One iteration of `engine.runRenderLoop` at time `now` (milliseconds),
with the physics observations for this frame. -/
noncomputable def tickG (now : ℚ) (obs : List PinObs) (lv av : Option Vec3Q) (st : Game) : Game :=
  match st.phase with
  | .AIMING => tickAiming now st
  | .CHARGING => tickCharging now st
  | .BALL_ROLLING => tickRolling now obs lv av st
  | .RESETTING => st
  | .ENDED => st

/-- The spacebar `keydown` handler: from `AIMING`, enter `CHARGING`, record
the charge start time, and (if the arrow exists) show minimum power. -/
def keydownSpace (now : ℚ) (st : Game) : Game :=
  if st.phase = .AIMING then
    applyCharging 0 { st with phase := .CHARGING, chargeStartTime := now }
  else st

/-- The impulse the keyup handler passes to `applyImpulse`:
`launchDirection.scale(launchPower)`, applied only when the ball and its
impostor exist. -/
noncomputable def launchImpulseOf (ball : Option Ball) (a : ℝ) (p : ℚ) : Option Vec3R :=
  match ball with
  | some b => if b.impostor then some ((launchDirection a).scale (p : ℝ)) else none
  | none => none

/-- The spacebar `keyup` handler: from `CHARGING`, enter `BALL_ROLLING`,
apply the launch impulse built from the frozen aim angle and the current
launch power, and hide the arrow. -/
noncomputable def keyupSpace (st : Game) : Game :=
  if st.phase = .CHARGING then
    { st with phase := .BALL_ROLLING,
              lastImpulse := launchImpulseOf st.ball st.aimAngle st.launchPower,
              arrow := hideArrow st.arrow }
  else st

/-- The ball part of `resetForNextThrow`: zero both velocities (when the
impostor exists) and reposition to `BALL_START_POS`. -/
def resetBall : Option Ball → Option Ball
  | none => none
  | some b =>
      some { (if b.impostor then { b with linVel := Vec3Q.zero, angVel := Vec3Q.zero } else b)
             with pos := BALL_START_POS }

/-- The arrow part of `resetForNextThrow`: straighten, shrink to minimum
length, show, and reposition to the start pose. -/
def resetArrowA : Option Arrow → Option Arrow
  | none => none
  | some a =>
      some { a with rotZ := 0, scaleY := ARROW_LENGTH_MIN, visible := true,
                    pos := ARROW_START_POS }

/-- `resetForNextThrow()`: enter `RESETTING`, stop and reposition the ball,
reset the arrow, clear the fallen set, restore baseline power and angle, and
schedule the 100 ms `RESETTING → AIMING` callback.  Score and pins are not
touched. -/
def resetForNextThrow (now : ℚ) (st : Game) : Game :=
  { st with phase := .RESETTING,
            ball := resetBall st.ball,
            arrow := resetArrowA st.arrow,
            fallen := (∅ : Finset ℕ),
            launchPower := MIN_LAUNCH_FORCE,
            aimAngle := 0,
            aimTimers := (now + 100) :: st.aimTimers }

/-- A pin as freshly created by `resetGame` at a rack position. -/
def freshPin (p : Vec3Q) : PinSt := ⟨p, true⟩

/-- The arrow as created by `createDirectionArrow`. -/
def initialArrow : Arrow :=
  { rotZ := 0, scaleY := ARROW_LENGTH_MIN, pos := ARROW_START_POS, visible := false }

/-- `resetGame(scene)`: enter `RESETTING`, dispose and rebuild the ball, all
ten pins and the arrow, zero the score, then run `resetForNextThrow`. -/
def resetGame (now : ℚ) (st : Game) : Game :=
  resetForNextThrow now
    { st with phase := .RESETTING,
              ball := some { pos := BALL_START_POS, linVel := Vec3Q.zero,
                             angVel := Vec3Q.zero, impostor := true },
              pins := pinPositions.map freshPin,
              arrow := some initialArrow,
              score := 0 }

/-- The `R` key branch of the keyup handler: unless already `RESETTING`,
clear any pending settle timer and run the full reset. -/
def keyupR (now : ℚ) (st : Game) : Game :=
  if st.phase ≠ .RESETTING then resetGame now { st with resetTimer := none } else st

/-- The 500 ms settle callback scheduled in the `BALL_ROLLING` branch: run
`resetForNextThrow` and null the timer handle.  Note it performs no phase
check of its own. -/
def fireResetTimer (now : ℚ) (st : Game) : Game :=
  { resetForNextThrow now st with resetTimer := none }

/-- The 100 ms callback scheduled by `resetForNextThrow`: switch to
`AIMING`, but only if the game is still `RESETTING` (the stale-timer
guard). -/
def fireAimTimer (st : Game) : Game :=
  if st.phase = .RESETTING then { st with phase := .AIMING } else st

/-- The module-level initial values of the globals, before `createScene`
runs `resetGame`. -/
def initialG : Game :=
  { phase := .AIMING, score := 0, fallen := (∅ : Finset ℕ), aimAngle := 0,
    chargeStartTime := 0, launchPower := MIN_LAUNCH_FORCE, ball := none,
    pins := [], arrow := none, lastImpulse := none, resetTimer := none,
    aimTimers := [] }

/-! ### Events and reachability -/

/-- One event of the single-threaded event loop.  A tick supplies the
physics observations for the frame (one pin observation per pin in the
scene, and the two velocity reads).  A pending `setTimeout` callback may
fire only after its recorded deadline, and only while it is still
pending — `clearTimeout` removes it. -/
inductive Step : Game → Game → Prop
  | tick (st : Game) (now : ℚ) (obs : List PinObs) (lv av : Option Vec3Q)
      (hobs : obs.length = st.pins.length) :
      Step st (tickG now obs lv av st)
  | keydown (st : Game) (now : ℚ) : Step st (keydownSpace now st)
  | keyupSp (st : Game) : Step st (keyupSpace st)
  | keyR (st : Game) (now : ℚ) : Step st (keyupR now st)
  | fireSettle (st : Game) (now d : ℚ) (hd : st.resetTimer = some d) (hle : d ≤ now) :
      Step st (fireResetTimer now st)
  | fireAim (st : Game) (now d : ℚ) (hd : d ∈ st.aimTimers) (hle : d ≤ now) :
      Step st (fireAimTimer { st with aimTimers := st.aimTimers.erase d })

/-- States reachable from the program start (`createScene` ends in
`resetGame`) by event-loop steps. -/
inductive Reachable : Game → Prop
  | init (t0 : ℚ) : Reachable (resetGame t0 initialG)
  | step {st st' : Game} : Reachable st → Step st st' → Reachable st'

/-- The inductive invariant of the event loop: the scene always holds the
ten racked pins, the fallen set only holds pin indices, a pending settle
timer implies the game is still `BALL_ROLLING`, and a pending
`RESETTING → AIMING` timer (of which there is at most one) implies the game
is still `RESETTING`. -/
def Inv (st : Game) : Prop :=
  st.pins = pinPositions.map freshPin ∧
  st.fallen ⊆ Finset.range 10 ∧
  (∀ d, st.resetTimer = some d → st.phase = .BALL_ROLLING) ∧
  (st.aimTimers ≠ [] → st.phase = .RESETTING) ∧
  st.aimTimers.length ≤ 1

/-! ### Sample states used to exercise the theorems on concrete inputs -/

/-- A freshly created ball at the start pose. -/
def sampleBall : Ball :=
  { pos := BALL_START_POS, linVel := Vec3Q.zero, angVel := Vec3Q.zero, impostor := true }

/-- A mid-roll state with the full rack. -/
def sampleRolling : Game :=
  { initialG with phase := .BALL_ROLLING, ball := some sampleBall,
                  pins := pinPositions.map freshPin, arrow := some initialArrow }

/-- A charging state with the arrow shown. -/
def sampleCharging : Game :=
  { initialG with phase := .CHARGING, ball := some sampleBall,
                  arrow := some initialArrow }

/-- An aiming state with the arrow shown. -/
def sampleAiming : Game :=
  { initialG with phase := .AIMING, arrow := some initialArrow }

/-- An upright-pin observation (not fallen). -/
def uprightObs : PinObs := { alive := true, impostor := true, dot := 1 }

/-- A full rack of upright observations. -/
def uprightRack : List PinObs := List.replicate 10 uprightObs

/-- A tilted-pin observation (dot product 0.5, below the threshold). -/
def fallenObs : PinObs := { alive := true, impostor := true, dot := 1 / 2 }

/-- A rack in which exactly the first pin has tipped over. -/
def mixedRack : List PinObs := fallenObs :: List.replicate 9 uprightObs

/-- A rolling state with no ball in the scene. -/
def sampleNoBall : Game := { sampleRolling with ball := none }

/-- A concrete event trace: program start at time 0. -/
def traceG1 : Game := resetGame 0 initialG

/-- The 100 ms callback fires at time 100. -/
def traceG2 : Game := fireAimTimer { traceG1 with aimTimers := traceG1.aimTimers.erase 100 }

/-- Spacebar pressed at time 100. -/
def traceG3 : Game := keydownSpace 100 traceG2

/-- Spacebar released: launch. -/
noncomputable def traceG4 : Game := keyupSpace traceG3

/-- A rolling tick at time 600 sees the ball stopped and schedules the
settle timer for time 1100. -/
noncomputable def traceG5 : Game :=
  tickG 600 uprightRack (some Vec3Q.zero) (some Vec3Q.zero) traceG4

/-! ## Lemmas about the scoring pass -/

theorem pinFalls_true_iff {f : Finset ℕ} {n : ℕ} {o : PinObs} :
    pinFalls f n o = true ↔
      o.alive = true ∧ o.impostor = true ∧ n ∉ f ∧ o.dot < PIN_FALLEN_THRESHOLD := by
  simp [pinFalls, and_assoc]

theorem pinFalls_insert (f : Finset ℕ) (j n : ℕ) (o : PinObs) (h : n ≠ j) :
    pinFalls (insert j f) n o = pinFalls f n o := by
  have h2 : decide (n ∉ insert j f) = decide (n ∉ f) :=
    decide_eq_decide.mpr (by simp [Finset.mem_insert, h])
  simp only [pinFalls, h2]

theorem newlyFallen_insert (obs : List PinObs) (f : Finset ℕ) (j : ℕ) :
    ∀ n, j < n → newlyFallen (insert j f) n obs = newlyFallen f n obs := by
  induction obs with
  | nil => intro n _; rfl
  | cons o rest ih =>
      intro n hj
      have hne : n ≠ j := by omega
      rw [newlyFallen, newlyFallen, pinFalls_insert f j n o hne, ih (n + 1) (by omega)]

theorem scorePins_spec (obs : List PinObs) :
    ∀ (n : ℕ) (s : ScoreSt),
      (scorePins n obs s).score = s.score + (newlyFallen s.fallen n obs).length ∧
      (scorePins n obs s).fallen = s.fallen ∪ (newlyFallen s.fallen n obs).toFinset := by
  induction obs with
  | nil => intro n s; simp [scorePins, newlyFallen]
  | cons o rest ih =>
      intro n s
      by_cases h : pinFalls s.fallen n o = true
      · have hrw := newlyFallen_insert rest s.fallen n (n + 1) (by omega)
        have hih := ih (n + 1) ⟨s.score + 1, insert n s.fallen⟩
        rw [scorePins, if_pos h, newlyFallen, if_pos h]
        constructor
        · rw [hih.1]
          simp only [hrw, List.length_cons]
          omega
        · rw [hih.2]
          simp only [hrw, List.toFinset_cons, Finset.insert_union, Finset.union_insert]
      · have hih := ih (n + 1) s
        rw [scorePins, if_neg h, newlyFallen, if_neg h]
        exact hih

theorem mem_newlyFallen (obs : List PinObs) :
    ∀ (f : Finset ℕ) (n i : ℕ),
      i ∈ newlyFallen f n obs ↔
        n ≤ i ∧ ∃ o, obs.get? (i - n) = some o ∧ pinFalls f i o = true := by
  induction obs with
  | nil => intro f n i; simp [newlyFallen]
  | cons o rest ih =>
      intro f n i
      constructor
      · intro hmem
        by_cases h : pinFalls f n o = true
        · rw [newlyFallen, if_pos h] at hmem
          rcases List.mem_cons.mp hmem with rfl | hm
          · exact ⟨le_refl i, o, by simp, h⟩
          · obtain ⟨hle, o', hget, hfall⟩ := (ih f (n + 1) i).mp hm
            refine ⟨by omega, o', ?_, hfall⟩
            have hsub : i - n = (i - (n + 1)) + 1 := by omega
            rw [hsub]
            simpa using hget
        · rw [newlyFallen, if_neg h] at hmem
          obtain ⟨hle, o', hget, hfall⟩ := (ih f (n + 1) i).mp hmem
          refine ⟨by omega, o', ?_, hfall⟩
          have hsub : i - n = (i - (n + 1)) + 1 := by omega
          rw [hsub]
          simpa using hget
      · rintro ⟨hle, o', hget, hfall⟩
        by_cases hin : i = n
        · subst hin
          have ho : o' = o := by
            have hx := hget
            rw [Nat.sub_self] at hx
            simpa using hx.symm
          subst ho
          rw [newlyFallen, if_pos hfall]
          exact List.mem_cons_self _ _
        · have hgt : n + 1 ≤ i := by omega
          have hget' : rest.get? (i - (n + 1)) = some o' := by
            have hsub : i - n = (i - (n + 1)) + 1 := by omega
            rw [hsub] at hget
            simpa using hget
          have hm : i ∈ newlyFallen f (n + 1) rest :=
            (ih f (n + 1) i).mpr ⟨hgt, o', hget', hfall⟩
          rw [newlyFallen]
          by_cases h : pinFalls f n o = true
          · rw [if_pos h]
            exact List.mem_cons_of_mem _ hm
          · rw [if_neg h]
            exact hm

theorem newlyFallen_not_mem_of_mem_fallen (obs : List PinObs) (f : Finset ℕ) (n i : ℕ)
    (hi : i ∈ f) : i ∉ newlyFallen f n obs := by
  intro hmem
  obtain ⟨-, o, -, hfall⟩ := (mem_newlyFallen obs f n i).mp hmem
  exact (pinFalls_true_iff.mp hfall).2.2.1 hi

theorem newlyFallen_mem_lt (obs : List PinObs) (f : Finset ℕ) (n i : ℕ)
    (hmem : i ∈ newlyFallen f n obs) : n ≤ i ∧ i - n < obs.length := by
  obtain ⟨hle, o, hget, -⟩ := (mem_newlyFallen obs f n i).mp hmem
  exact ⟨hle, List.get?_eq_some.mp hget |>.1⟩

/-! ## Field lemmas for the transition functions -/

theorem checkFallenPinsG_score (st : Game) (obs : List PinObs) :
    (checkFallenPinsG st obs).score =
      st.score + (newlyFallen st.fallen 0 (obs.take st.pins.length)).length :=
  (scorePins_spec _ 0 ⟨st.score, st.fallen⟩).1

theorem checkFallenPinsG_fallen (st : Game) (obs : List PinObs) :
    (checkFallenPinsG st obs).fallen =
      st.fallen ∪ (newlyFallen st.fallen 0 (obs.take st.pins.length)).toFinset :=
  (scorePins_spec _ 0 ⟨st.score, st.fallen⟩).2

@[simp] theorem checkFallenPinsG_phase (st : Game) (obs : List PinObs) :
    (checkFallenPinsG st obs).phase = st.phase := rfl

@[simp] theorem checkFallenPinsG_ball (st : Game) (obs : List PinObs) :
    (checkFallenPinsG st obs).ball = st.ball := rfl

@[simp] theorem checkFallenPinsG_arrow (st : Game) (obs : List PinObs) :
    (checkFallenPinsG st obs).arrow = st.arrow := rfl

@[simp] theorem checkFallenPinsG_resetTimer (st : Game) (obs : List PinObs) :
    (checkFallenPinsG st obs).resetTimer = st.resetTimer := rfl

@[simp] theorem checkFallenPinsG_aimTimers (st : Game) (obs : List PinObs) :
    (checkFallenPinsG st obs).aimTimers = st.aimTimers := rfl

@[simp] theorem checkFallenPinsG_pins (st : Game) (obs : List PinObs) :
    (checkFallenPinsG st obs).pins = st.pins := rfl

@[simp] theorem checkFallenPinsG_aimAngle (st : Game) (obs : List PinObs) :
    (checkFallenPinsG st obs).aimAngle = st.aimAngle := rfl

@[simp] theorem checkFallenPinsG_launchPower (st : Game) (obs : List PinObs) :
    (checkFallenPinsG st obs).launchPower = st.launchPower := rfl

@[simp] theorem applyCharging_phase (d : ℚ) (st : Game) :
    (applyCharging d st).phase = st.phase := by
  cases h : st.arrow <;> simp [applyCharging, h]

@[simp] theorem applyCharging_score (d : ℚ) (st : Game) :
    (applyCharging d st).score = st.score := by
  cases h : st.arrow <;> simp [applyCharging, h]

@[simp] theorem applyCharging_fallen (d : ℚ) (st : Game) :
    (applyCharging d st).fallen = st.fallen := by
  cases h : st.arrow <;> simp [applyCharging, h]

@[simp] theorem applyCharging_resetTimer (d : ℚ) (st : Game) :
    (applyCharging d st).resetTimer = st.resetTimer := by
  cases h : st.arrow <;> simp [applyCharging, h]

@[simp] theorem applyCharging_aimTimers (d : ℚ) (st : Game) :
    (applyCharging d st).aimTimers = st.aimTimers := by
  cases h : st.arrow <;> simp [applyCharging, h]

@[simp] theorem applyCharging_pins (d : ℚ) (st : Game) :
    (applyCharging d st).pins = st.pins := by
  cases h : st.arrow <;> simp [applyCharging, h]

@[simp] theorem applyCharging_ball (d : ℚ) (st : Game) :
    (applyCharging d st).ball = st.ball := by
  cases h : st.arrow <;> simp [applyCharging, h]

@[simp] theorem applyCharging_aimAngle (d : ℚ) (st : Game) :
    (applyCharging d st).aimAngle = st.aimAngle := by
  cases h : st.arrow <;> simp [applyCharging, h]

@[simp] theorem applyCharging_chargeStartTime (d : ℚ) (st : Game) :
    (applyCharging d st).chargeStartTime = st.chargeStartTime := by
  cases h : st.arrow <;> simp [applyCharging, h]

theorem applyCharging_launchPower (d : ℚ) (st : Game) (a : Arrow) (h : st.arrow = some a) :
    (applyCharging d st).launchPower = launchPowerOf d := by
  simp [applyCharging, h]

@[simp] theorem tickAiming_phase (now : ℚ) (st : Game) :
    (tickAiming now st).phase = st.phase := by
  cases h : st.arrow <;> simp [tickAiming, h]

@[simp] theorem tickAiming_score (now : ℚ) (st : Game) :
    (tickAiming now st).score = st.score := by
  cases h : st.arrow <;> simp [tickAiming, h]

@[simp] theorem tickAiming_fallen (now : ℚ) (st : Game) :
    (tickAiming now st).fallen = st.fallen := by
  cases h : st.arrow <;> simp [tickAiming, h]

@[simp] theorem tickAiming_resetTimer (now : ℚ) (st : Game) :
    (tickAiming now st).resetTimer = st.resetTimer := by
  cases h : st.arrow <;> simp [tickAiming, h]

@[simp] theorem tickAiming_aimTimers (now : ℚ) (st : Game) :
    (tickAiming now st).aimTimers = st.aimTimers := by
  cases h : st.arrow <;> simp [tickAiming, h]

@[simp] theorem tickAiming_pins (now : ℚ) (st : Game) :
    (tickAiming now st).pins = st.pins := by
  cases h : st.arrow <;> simp [tickAiming, h]

@[simp] theorem tickAiming_ball (now : ℚ) (st : Game) :
    (tickAiming now st).ball = st.ball := by
  cases h : st.arrow <;> simp [tickAiming, h]

@[simp] theorem tickAiming_launchPower (now : ℚ) (st : Game) :
    (tickAiming now st).launchPower = st.launchPower := by
  cases h : st.arrow <;> simp [tickAiming, h]

theorem tickAiming_aimAngle (now : ℚ) (st : Game) (a : Arrow) (h : st.arrow = some a) :
    (tickAiming now st).aimAngle = oscillation (now / 1000) := by
  simp [tickAiming, h]

theorem tickRolling_phase (now : ℚ) (obs : List PinObs) (lv av : Option Vec3Q) (st : Game) :
    (tickRolling now obs lv av st).phase = st.phase := by
  simp only [tickRolling]
  split
  · split <;> rfl
  · rfl

theorem tickRolling_pins (now : ℚ) (obs : List PinObs) (lv av : Option Vec3Q) (st : Game) :
    (tickRolling now obs lv av st).pins = st.pins := by
  simp only [tickRolling]
  split
  · split <;> rfl
  · rfl

theorem tickRolling_aimTimers (now : ℚ) (obs : List PinObs) (lv av : Option Vec3Q) (st : Game) :
    (tickRolling now obs lv av st).aimTimers = st.aimTimers := by
  simp only [tickRolling]
  split
  · split <;> rfl
  · rfl

theorem tickRolling_ball (now : ℚ) (obs : List PinObs) (lv av : Option Vec3Q) (st : Game) :
    (tickRolling now obs lv av st).ball = st.ball := by
  simp only [tickRolling]
  split
  · split <;> rfl
  · rfl

theorem tickRolling_aimAngle (now : ℚ) (obs : List PinObs) (lv av : Option Vec3Q) (st : Game) :
    (tickRolling now obs lv av st).aimAngle = st.aimAngle := by
  simp only [tickRolling]
  split
  · split <;> rfl
  · rfl

theorem tickRolling_launchPower (now : ℚ) (obs : List PinObs) (lv av : Option Vec3Q) (st : Game) :
    (tickRolling now obs lv av st).launchPower = st.launchPower := by
  simp only [tickRolling]
  split
  · split <;> rfl
  · rfl

theorem tickRolling_score (now : ℚ) (obs : List PinObs) (lv av : Option Vec3Q) (st : Game) :
    (tickRolling now obs lv av st).score =
      st.score + (newlyFallen st.fallen 0 (obs.take st.pins.length)).length := by
  simp only [tickRolling]
  split
  · split
    · exact checkFallenPinsG_score { st with arrow := hideArrow st.arrow } obs
    · exact checkFallenPinsG_score { st with arrow := hideArrow st.arrow } obs
  · exact checkFallenPinsG_score { st with arrow := hideArrow st.arrow } obs

theorem tickRolling_fallen (now : ℚ) (obs : List PinObs) (lv av : Option Vec3Q) (st : Game) :
    (tickRolling now obs lv av st).fallen =
      st.fallen ∪ (newlyFallen st.fallen 0 (obs.take st.pins.length)).toFinset := by
  simp only [tickRolling]
  split
  · split
    · exact checkFallenPinsG_fallen { st with arrow := hideArrow st.arrow } obs
    · exact checkFallenPinsG_fallen { st with arrow := hideArrow st.arrow } obs
  · exact checkFallenPinsG_fallen { st with arrow := hideArrow st.arrow } obs

theorem tickRolling_resetTimer_schedules (now : ℚ) (obs : List PinObs) (lv av : Option Vec3Q)
    (st : Game) (hstop : isBallStopped st.ball lv av = true) (hnone : st.resetTimer = none) :
    (tickRolling now obs lv av st).resetTimer = some (now + 500) := by
  simp [tickRolling, hstop, hnone]

theorem tickRolling_resetTimer_keeps (now : ℚ) (obs : List PinObs) (lv av : Option Vec3Q)
    (st : Game) (d : ℚ) (hstop : isBallStopped st.ball lv av = true)
    (hsome : st.resetTimer = some d) :
    (tickRolling now obs lv av st).resetTimer = some d := by
  simp [tickRolling, hstop, hsome]

theorem tickRolling_resetTimer_cancels (now : ℚ) (obs : List PinObs) (lv av : Option Vec3Q)
    (st : Game) (hmove : isBallStopped st.ball lv av = false) :
    (tickRolling now obs lv av st).resetTimer = none := by
  simp [tickRolling, hmove]

theorem tickG_aiming (now : ℚ) (obs : List PinObs) (lv av : Option Vec3Q) (st : Game)
    (h : st.phase = .AIMING) : tickG now obs lv av st = tickAiming now st := by
  simp [tickG, h]

theorem tickG_charging (now : ℚ) (obs : List PinObs) (lv av : Option Vec3Q) (st : Game)
    (h : st.phase = .CHARGING) : tickG now obs lv av st = tickCharging now st := by
  simp [tickG, h]

theorem tickG_rolling (now : ℚ) (obs : List PinObs) (lv av : Option Vec3Q) (st : Game)
    (h : st.phase = .BALL_ROLLING) : tickG now obs lv av st = tickRolling now obs lv av st := by
  simp [tickG, h]

theorem tickG_resetting (now : ℚ) (obs : List PinObs) (lv av : Option Vec3Q) (st : Game)
    (h : st.phase = .RESETTING) : tickG now obs lv av st = st := by
  simp [tickG, h]

theorem tickG_ended (now : ℚ) (obs : List PinObs) (lv av : Option Vec3Q) (st : Game)
    (h : st.phase = .ENDED) : tickG now obs lv av st = st := by
  simp [tickG, h]

theorem tickG_phase (now : ℚ) (obs : List PinObs) (lv av : Option Vec3Q) (st : Game) :
    (tickG now obs lv av st).phase = st.phase := by
  cases h : st.phase
  · rw [tickG_aiming now obs lv av st h, tickAiming_phase, h]
  · rw [tickG_charging now obs lv av st h]
    unfold tickCharging
    rw [applyCharging_phase, h]
  · rw [tickG_rolling now obs lv av st h, tickRolling_phase, h]
  · rw [tickG_resetting now obs lv av st h, h]
  · rw [tickG_ended now obs lv av st h, h]

theorem keydownSpace_noop (now : ℚ) (st : Game) (h : st.phase ≠ .AIMING) :
    keydownSpace now st = st := by
  simp [keydownSpace, h]

theorem keydownSpace_acts (now : ℚ) (st : Game) (h : st.phase = .AIMING) :
    keydownSpace now st = applyCharging 0 { st with phase := .CHARGING, chargeStartTime := now } := by
  simp [keydownSpace, h]

@[simp] theorem keydownSpace_score (now : ℚ) (st : Game) :
    (keydownSpace now st).score = st.score := by
  unfold keydownSpace
  split
  · rw [applyCharging_score]
  · rfl

@[simp] theorem keydownSpace_fallen (now : ℚ) (st : Game) :
    (keydownSpace now st).fallen = st.fallen := by
  unfold keydownSpace
  split
  · rw [applyCharging_fallen]
  · rfl

@[simp] theorem keydownSpace_resetTimer (now : ℚ) (st : Game) :
    (keydownSpace now st).resetTimer = st.resetTimer := by
  unfold keydownSpace
  split
  · rw [applyCharging_resetTimer]
  · rfl

@[simp] theorem keydownSpace_aimTimers (now : ℚ) (st : Game) :
    (keydownSpace now st).aimTimers = st.aimTimers := by
  unfold keydownSpace
  split
  · rw [applyCharging_aimTimers]
  · rfl

@[simp] theorem keydownSpace_pins (now : ℚ) (st : Game) :
    (keydownSpace now st).pins = st.pins := by
  unfold keydownSpace
  split
  · rw [applyCharging_pins]
  · rfl

@[simp] theorem keydownSpace_ball (now : ℚ) (st : Game) :
    (keydownSpace now st).ball = st.ball := by
  unfold keydownSpace
  split
  · rw [applyCharging_ball]
  · rfl

@[simp] theorem keydownSpace_aimAngle (now : ℚ) (st : Game) :
    (keydownSpace now st).aimAngle = st.aimAngle := by
  unfold keydownSpace
  split
  · rw [applyCharging_aimAngle]
  · rfl

theorem keyupSpace_noop (st : Game) (h : st.phase ≠ .CHARGING) : keyupSpace st = st := by
  simp [keyupSpace, h]

theorem keyupSpace_acts (st : Game) (h : st.phase = .CHARGING) :
    keyupSpace st =
      { st with phase := .BALL_ROLLING,
                lastImpulse := launchImpulseOf st.ball st.aimAngle st.launchPower,
                arrow := hideArrow st.arrow } := by
  simp [keyupSpace, h]

@[simp] theorem keyupSpace_score (st : Game) : (keyupSpace st).score = st.score := by
  unfold keyupSpace
  split <;> rfl

@[simp] theorem keyupSpace_fallen (st : Game) : (keyupSpace st).fallen = st.fallen := by
  unfold keyupSpace
  split <;> rfl

@[simp] theorem keyupSpace_resetTimer (st : Game) : (keyupSpace st).resetTimer = st.resetTimer := by
  unfold keyupSpace
  split <;> rfl

@[simp] theorem keyupSpace_aimTimers (st : Game) : (keyupSpace st).aimTimers = st.aimTimers := by
  unfold keyupSpace
  split <;> rfl

@[simp] theorem keyupSpace_pins (st : Game) : (keyupSpace st).pins = st.pins := by
  unfold keyupSpace
  split <;> rfl

@[simp] theorem keyupSpace_ball (st : Game) : (keyupSpace st).ball = st.ball := by
  unfold keyupSpace
  split <;> rfl

@[simp] theorem keyupSpace_aimAngle (st : Game) : (keyupSpace st).aimAngle = st.aimAngle := by
  unfold keyupSpace
  split <;> rfl

@[simp] theorem keyupSpace_launchPower (st : Game) :
    (keyupSpace st).launchPower = st.launchPower := by
  unfold keyupSpace
  split <;> rfl

@[simp] theorem resetForNextThrow_phase (now : ℚ) (st : Game) :
    (resetForNextThrow now st).phase = .RESETTING := rfl

@[simp] theorem resetForNextThrow_fallen (now : ℚ) (st : Game) :
    (resetForNextThrow now st).fallen = (∅ : Finset ℕ) := rfl

@[simp] theorem resetForNextThrow_score (now : ℚ) (st : Game) :
    (resetForNextThrow now st).score = st.score := rfl

@[simp] theorem resetForNextThrow_pins (now : ℚ) (st : Game) :
    (resetForNextThrow now st).pins = st.pins := rfl

@[simp] theorem resetForNextThrow_launchPower (now : ℚ) (st : Game) :
    (resetForNextThrow now st).launchPower = MIN_LAUNCH_FORCE := rfl

@[simp] theorem resetForNextThrow_aimAngle (now : ℚ) (st : Game) :
    (resetForNextThrow now st).aimAngle = 0 := rfl

@[simp] theorem resetForNextThrow_ball (now : ℚ) (st : Game) :
    (resetForNextThrow now st).ball = resetBall st.ball := rfl

@[simp] theorem resetForNextThrow_arrow (now : ℚ) (st : Game) :
    (resetForNextThrow now st).arrow = resetArrowA st.arrow := rfl

@[simp] theorem resetForNextThrow_resetTimer (now : ℚ) (st : Game) :
    (resetForNextThrow now st).resetTimer = st.resetTimer := rfl

@[simp] theorem resetForNextThrow_aimTimers (now : ℚ) (st : Game) :
    (resetForNextThrow now st).aimTimers = (now + 100) :: st.aimTimers := rfl

@[simp] theorem resetGame_score (now : ℚ) (st : Game) : (resetGame now st).score = 0 := rfl

@[simp] theorem resetGame_fallen (now : ℚ) (st : Game) :
    (resetGame now st).fallen = (∅ : Finset ℕ) := rfl

@[simp] theorem resetGame_phase (now : ℚ) (st : Game) :
    (resetGame now st).phase = .RESETTING := rfl

@[simp] theorem resetGame_pins (now : ℚ) (st : Game) :
    (resetGame now st).pins = pinPositions.map freshPin := rfl

@[simp] theorem resetGame_resetTimer (now : ℚ) (st : Game) :
    (resetGame now st).resetTimer = st.resetTimer := rfl

@[simp] theorem resetGame_aimTimers (now : ℚ) (st : Game) :
    (resetGame now st).aimTimers = (now + 100) :: st.aimTimers := rfl

@[simp] theorem fireResetTimer_resetTimer (now : ℚ) (st : Game) :
    (fireResetTimer now st).resetTimer = none := rfl

@[simp] theorem fireResetTimer_fallen (now : ℚ) (st : Game) :
    (fireResetTimer now st).fallen = (∅ : Finset ℕ) := rfl

@[simp] theorem fireResetTimer_score (now : ℚ) (st : Game) :
    (fireResetTimer now st).score = st.score := rfl

@[simp] theorem fireResetTimer_phase (now : ℚ) (st : Game) :
    (fireResetTimer now st).phase = .RESETTING := rfl

@[simp] theorem fireResetTimer_pins (now : ℚ) (st : Game) :
    (fireResetTimer now st).pins = st.pins := rfl

@[simp] theorem fireResetTimer_aimTimers (now : ℚ) (st : Game) :
    (fireResetTimer now st).aimTimers = (now + 100) :: st.aimTimers := rfl

theorem keyupR_noop (now : ℚ) (st : Game) (h : st.phase = .RESETTING) : keyupR now st = st := by
  simp [keyupR, h]

theorem keyupR_acts (now : ℚ) (st : Game) (h : st.phase ≠ .RESETTING) :
    keyupR now st = resetGame now { st with resetTimer := none } := by
  simp [keyupR, h]

theorem fireAimTimer_noop (st : Game) (h : st.phase ≠ .RESETTING) : fireAimTimer st = st := by
  simp [fireAimTimer, h]

theorem fireAimTimer_acts (st : Game) (h : st.phase = .RESETTING) :
    fireAimTimer st = { st with phase := .AIMING } := by
  simp [fireAimTimer, h]

@[simp] theorem fireAimTimer_score (st : Game) : (fireAimTimer st).score = st.score := by
  unfold fireAimTimer
  split <;> rfl

@[simp] theorem fireAimTimer_fallen (st : Game) : (fireAimTimer st).fallen = st.fallen := by
  unfold fireAimTimer
  split <;> rfl

@[simp] theorem fireAimTimer_resetTimer (st : Game) :
    (fireAimTimer st).resetTimer = st.resetTimer := by
  unfold fireAimTimer
  split <;> rfl

@[simp] theorem fireAimTimer_aimTimers (st : Game) :
    (fireAimTimer st).aimTimers = st.aimTimers := by
  unfold fireAimTimer
  split <;> rfl

@[simp] theorem fireAimTimer_pins (st : Game) : (fireAimTimer st).pins = st.pins := by
  unfold fireAimTimer
  split <;> rfl

/-! ## The inductive invariant -/

theorem pins_length_ten : (pinPositions.map freshPin).length = 10 := by
  simp [pinPositions]

theorem inv_init (t0 : ℚ) : Inv (resetGame t0 initialG) := by
  refine ⟨rfl, ?_, ?_, ?_, ?_⟩
  · rw [resetGame_fallen]
    exact Finset.empty_subset _
  · intro d hd
    rw [resetGame_resetTimer] at hd
    cases hd
  · intro _
    rw [resetGame_phase]
  · rw [resetGame_aimTimers]
    simp [initialG]

theorem inv_step {st st' : Game} (hinv : Inv st) (hs : Step st st') : Inv st' := by
  obtain ⟨hpins, hfall, hrt, hat, hlen⟩ := hinv
  cases hs with
  | tick now obs lv av hobs =>
      cases hph : st.phase with
      | AIMING =>
          rw [tickG_aiming now obs lv av st hph]
          refine ⟨?_, ?_, ?_, ?_, ?_⟩
          · rw [tickAiming_pins]; exact hpins
          · rw [tickAiming_fallen]; exact hfall
          · intro d hd
            rw [tickAiming_phase]
            exact hrt d (by rwa [tickAiming_resetTimer] at hd)
          · intro hne
            rw [tickAiming_phase]
            exact hat (by rwa [tickAiming_aimTimers] at hne)
          · rw [tickAiming_aimTimers]; exact hlen
      | CHARGING =>
          rw [tickG_charging now obs lv av st hph]
          unfold tickCharging
          refine ⟨?_, ?_, ?_, ?_, ?_⟩
          · rw [applyCharging_pins]; exact hpins
          · rw [applyCharging_fallen]; exact hfall
          · intro d hd
            rw [applyCharging_phase]
            exact hrt d (by rwa [applyCharging_resetTimer] at hd)
          · intro hne
            rw [applyCharging_phase]
            exact hat (by rwa [applyCharging_aimTimers] at hne)
          · rw [applyCharging_aimTimers]; exact hlen
      | BALL_ROLLING =>
          rw [tickG_rolling now obs lv av st hph]
          refine ⟨?_, ?_, ?_, ?_, ?_⟩
          · rw [tickRolling_pins]; exact hpins
          · rw [tickRolling_fallen]
            apply Finset.union_subset hfall
            intro i hi
            rw [List.mem_toFinset] at hi
            have hb := newlyFallen_mem_lt _ _ _ _ hi
            have htk : (obs.take st.pins.length).length ≤ st.pins.length := by
              simp [List.length_take]
            have hlen10 : st.pins.length = 10 := by rw [hpins]; exact pins_length_ten
            rw [Finset.mem_range]
            omega
          · intro d _
            rw [tickRolling_phase]
            exact hph
          · intro hne
            rw [tickRolling_phase]
            exact hat (by rwa [tickRolling_aimTimers] at hne)
          · rw [tickRolling_aimTimers]; exact hlen
      | RESETTING =>
          rw [tickG_resetting now obs lv av st hph]
          exact ⟨hpins, hfall, hrt, hat, hlen⟩
      | ENDED =>
          rw [tickG_ended now obs lv av st hph]
          exact ⟨hpins, hfall, hrt, hat, hlen⟩
  | keydown now =>
      by_cases hph : st.phase = .AIMING
      · rw [keydownSpace_acts now st hph]
        refine ⟨?_, ?_, ?_, ?_, ?_⟩
        · rw [applyCharging_pins]; exact hpins
        · rw [applyCharging_fallen]; exact hfall
        · intro d hd
          rw [applyCharging_resetTimer] at hd
          have hc := hrt d hd
          rw [hph] at hc
          simp at hc
        · intro hne
          rw [applyCharging_aimTimers] at hne
          have hc := hat hne
          rw [hph] at hc
          simp at hc
        · rw [applyCharging_aimTimers]; exact hlen
      · rw [keydownSpace_noop now st hph]
        exact ⟨hpins, hfall, hrt, hat, hlen⟩
  | keyupSp =>
      by_cases hph : st.phase = .CHARGING
      · rw [keyupSpace_acts st hph]
        refine ⟨hpins, hfall, ?_, ?_, hlen⟩
        · intro d _
          rfl
        · intro hne
          have hc := hat hne
          rw [hph] at hc
          simp at hc
      · rw [keyupSpace_noop st hph]
        exact ⟨hpins, hfall, hrt, hat, hlen⟩
  | keyR now =>
      by_cases hph : st.phase = .RESETTING
      · rw [keyupR_noop now st hph]
        exact ⟨hpins, hfall, hrt, hat, hlen⟩
      · rw [keyupR_acts now st hph]
        have hempty : st.aimTimers = [] := by
          by_contra hne
          exact hph (hat hne)
        refine ⟨rfl, ?_, ?_, ?_, ?_⟩
        · rw [resetGame_fallen]
          exact Finset.empty_subset _
        · intro d hd
          rw [resetGame_resetTimer] at hd
          cases hd
        · intro _
          rw [resetGame_phase]
        · rw [resetGame_aimTimers]
          simp [hempty]
  | fireSettle now d hd hle =>
      have hph := hrt d hd
      have hempty : st.aimTimers = [] := by
        by_contra hne
        have hc := hat hne
        rw [hph] at hc
        simp at hc
      refine ⟨?_, ?_, ?_, ?_, ?_⟩
      · rw [fireResetTimer_pins]; exact hpins
      · rw [fireResetTimer_fallen]
        exact Finset.empty_subset _
      · intro d' hd'
        rw [fireResetTimer_resetTimer] at hd'
        cases hd'
      · intro _
        rw [fireResetTimer_phase]
      · rw [fireResetTimer_aimTimers, hempty]
        simp
  | fireAim now d hd hle =>
      have hph : st.phase = .RESETTING := hat (List.ne_nil_of_mem hd)
      have herase : st.aimTimers.erase d = [] := by
        cases hl : st.aimTimers with
        | nil =>
            rw [hl] at hd
            simp at hd
        | cons x xs =>
            have hxs : xs = [] := by
              rw [hl] at hlen
              simp at hlen
              exact hlen
            subst hxs
            rw [hl] at hd
            simp at hd
            subst hd
            simp
      have hacts : fireAimTimer { st with aimTimers := st.aimTimers.erase d } =
          { st with aimTimers := st.aimTimers.erase d, phase := .AIMING } := by
        apply fireAimTimer_acts
        exact hph
      rw [hacts]
      refine ⟨hpins, hfall, ?_, ?_, ?_⟩
      · intro d' hd'
        have hc := hrt d' hd'
        rw [hph] at hc
        simp at hc
      · intro hne
        exact absurd herase hne
      · rw [herase]
        simp

theorem reachable_inv {st : Game} (h : Reachable st) : Inv st := by
  induction h with
  | init t0 => exact inv_init t0
  | step _ hs ih => exact inv_step ih hs

/-! ## Facts about the concrete event trace -/

theorem traceG1_aimTimers : traceG1.aimTimers = [(100 : ℚ)] := by
  rw [traceG1, resetGame_aimTimers]
  norm_num [initialG]

theorem reachable_traceG2 : Reachable traceG2 := by
  refine Reachable.step (Reachable.init 0) ?_
  exact Step.fireAim traceG1 100 100 (by rw [traceG1_aimTimers]; simp) le_rfl

theorem traceG4_phase : traceG4.phase = .BALL_ROLLING := rfl

theorem traceG4_pins_length : traceG4.pins.length = 10 := by
  have : traceG4.pins = pinPositions.map freshPin := rfl
  rw [this, pins_length_ten]

theorem reachable_traceG5 : Reachable traceG5 := by
  have h3 : Reachable traceG3 := Reachable.step reachable_traceG2 (Step.keydown traceG2 100)
  have h4 : Reachable traceG4 := Reachable.step h3 (Step.keyupSp traceG3)
  refine Reachable.step h4 ?_
  exact Step.tick traceG4 600 uprightRack (some Vec3Q.zero) (some Vec3Q.zero)
    (by rw [traceG4_pins_length]; simp [uprightRack])

theorem traceG5_resetTimer : traceG5.resetTimer = some 1100 := by
  have hball : traceG4.ball = some sampleBall := rfl
  have hstop : isBallStopped traceG4.ball (some Vec3Q.zero) (some Vec3Q.zero) = true := by
    rw [hball]
    simp only [isBallStopped, sampleBall, Vec3Q.lengthSquared, Vec3Q.zero, STOP_THRESHOLD]
    norm_num
  have hnone : traceG4.resetTimer = none := rfl
  rw [traceG5, tickG_rolling 600 uprightRack (some Vec3Q.zero) (some Vec3Q.zero) traceG4 traceG4_phase,
      tickRolling_resetTimer_schedules 600 uprightRack (some Vec3Q.zero) (some Vec3Q.zero)
        traceG4 hstop hnone]
  norm_num

/-! ## Lemmas about the launch direction and the oscillator -/

theorem len_launch_vec (a : ℝ) : Vec3R.len ⟨-Real.sin a, 0, Real.cos a⟩ = 1 := by
  unfold Vec3R.len
  have h : (-Real.sin a) ^ 2 + (0 : ℝ) ^ 2 + Real.cos a ^ 2 = 1 := by
    have := Real.sin_sq_add_cos_sq a
    ring_nf
    ring_nf at this
    linarith
  rw [h, Real.sqrt_one]

theorem scale_one (v : Vec3R) : v.scale 1 = v := by
  cases v
  simp [Vec3R.scale]

theorem launchDirection_eq (a : ℝ) :
    launchDirection a = ⟨-Real.sin a, 0, Real.cos a⟩ := by
  unfold launchDirection Vec3R.normalize
  rw [len_launch_vec a]
  norm_num
  exact scale_one _

theorem len_scale (v : Vec3R) (s : ℝ) : (v.scale s).len = |s| * v.len := by
  unfold Vec3R.len Vec3R.scale
  have h : (v.x * s) ^ 2 + (v.y * s) ^ 2 + (v.z * s) ^ 2 =
      s ^ 2 * (v.x ^ 2 + v.y ^ 2 + v.z ^ 2) := by ring
  rw [h, Real.sqrt_mul (sq_nonneg s), Real.sqrt_sq_eq_abs]

theorem launchDirection_len (a : ℝ) : (launchDirection a).len = 1 := by
  rw [launchDirection_eq]
  exact len_launch_vec a

theorem oscillation_abs_le (t : ℚ) : |oscillation t| ≤ ARROW_MAX_ANGLE := by
  unfold oscillation
  rw [abs_mul]
  have h1 : |Real.sin ((t : ℝ) * (ARROW_OSCILLATION_SPEED : ℚ))| ≤ 1 := Real.abs_sin_le_one _
  have h2 : (0 : ℝ) ≤ ARROW_MAX_ANGLE := by
    unfold ARROW_MAX_ANGLE
    positivity
  calc |Real.sin ((t : ℝ) * (ARROW_OSCILLATION_SPEED : ℚ))| * |ARROW_MAX_ANGLE|
      ≤ 1 * |ARROW_MAX_ANGLE| := by
        exact mul_le_mul_of_nonneg_right h1 (abs_nonneg _)
    _ = ARROW_MAX_ANGLE := by rw [one_mul, abs_of_nonneg h2]

/-! ## The claims -/

/-- C1: on every tick in the `BALL_ROLLING` phase, the score increases by
exactly the number of newly fallen pins detected in that tick — the pin
indices not already in the fallen set whose observed up-vector dot product
is below the threshold `0.7` (with the pin and its impostor present) — and
exactly those indices are added to the fallen set; an index already in the
fallen set is never among the newly detected ones, so it is never scored
again during the same throw however its dot product later oscillates. -/
theorem C1_rolling_tick_scores_each_new_pin_once (now : ℚ) (obs : List PinObs)
    (lv av : Option Vec3Q) (st : Game) (hph : st.phase = .BALL_ROLLING)
    (hobs : obs.length = st.pins.length) :
    (tickG now obs lv av st).score = st.score + (newlyFallen st.fallen 0 obs).length ∧
    (tickG now obs lv av st).fallen = st.fallen ∪ (newlyFallen st.fallen 0 obs).toFinset ∧
    (∀ i, i ∈ newlyFallen st.fallen 0 obs ↔
        ∃ o, obs.get? i = some o ∧ o.alive = true ∧ o.impostor = true ∧
          i ∉ st.fallen ∧ o.dot < PIN_FALLEN_THRESHOLD) ∧
    (∀ i ∈ st.fallen, i ∉ newlyFallen st.fallen 0 obs) := by
  have htake : obs.take st.pins.length = obs := by
    rw [← hobs]
    exact List.take_length obs
  rw [tickG_rolling now obs lv av st hph]
  refine ⟨?_, ?_, ?_, ?_⟩
  · rw [tickRolling_score, htake]
  · rw [tickRolling_fallen, htake]
  · intro i
    rw [mem_newlyFallen obs st.fallen 0 i]
    constructor
    · rintro ⟨-, o, hget, hfall⟩
      obtain ⟨ha, hi2, hnin, hdot⟩ := pinFalls_true_iff.mp hfall
      exact ⟨o, by simpa using hget, ha, hi2, hnin, hdot⟩
    · rintro ⟨o, hget, ha, hi2, hnin, hdot⟩
      exact ⟨Nat.zero_le i, o, by simpa using hget,
        pinFalls_true_iff.mpr ⟨ha, hi2, hnin, hdot⟩⟩
  · intro i hi
    exact newlyFallen_not_mem_of_mem_fallen obs st.fallen 0 i hi

/-- Witness for C1 at a concrete rolling state in which the first pin has
just tipped (dot 0.5) and the other nine are upright. -/
theorem C1_witness :
    (tickG 0 mixedRack none none sampleRolling).score =
      sampleRolling.score + (newlyFallen sampleRolling.fallen 0 mixedRack).length ∧
    (newlyFallen sampleRolling.fallen 0 mixedRack).length = 1 := by
  constructor
  · exact (C1_rolling_tick_scores_each_new_pin_once 0 mixedRack none none sampleRolling
      rfl rfl).1
  · norm_num [mixedRack, newlyFallen, pinFalls, fallenObs, uprightObs, PIN_FALLEN_THRESHOLD,
      sampleRolling, initialG, List.replicate]

/-- C2: for every elapsed charge duration `d ≥ 0`, the charge fraction is
`min (d / 1500) 1`, hence lies in `[0, 1]`; the launch power is
`20 + (150 - 20) ·` fraction, hence lies in `[20, 150]`, is monotonically
non-decreasing in `d`, and equals exactly `150` for every `d ≥ 1500`; and
this is exactly the power `updateArrowCharging` stores when the arrow
exists. -/
theorem C2_charge_power_clamped_and_monotone (d : ℚ) (hd : 0 ≤ d) :
    chargeFraction d = min (d / MAX_CHARGE_TIME) 1 ∧
    0 ≤ chargeFraction d ∧
    chargeFraction d ≤ 1 ∧
    launchPowerOf d =
      MIN_LAUNCH_FORCE + (MAX_LAUNCH_FORCE - MIN_LAUNCH_FORCE) * chargeFraction d ∧
    MIN_LAUNCH_FORCE ≤ launchPowerOf d ∧
    launchPowerOf d ≤ MAX_LAUNCH_FORCE ∧
    (∀ e, d ≤ e → launchPowerOf d ≤ launchPowerOf e) ∧
    (MAX_CHARGE_TIME ≤ d → launchPowerOf d = MAX_LAUNCH_FORCE) ∧
    (∀ (st : Game) (a : Arrow), st.arrow = some a →
      (applyCharging d st).launchPower = launchPowerOf d) := by
  have hfrac0 : 0 ≤ chargeFraction d := by
    unfold chargeFraction
    refine le_min ?_ zero_le_one
    have : (0 : ℚ) < MAX_CHARGE_TIME := by norm_num [MAX_CHARGE_TIME]
    positivity
  have hfrac1 : chargeFraction d ≤ 1 := min_le_right _ _
  have hpos : (0 : ℚ) < MAX_CHARGE_TIME := by norm_num [MAX_CHARGE_TIME]
  have hmonof : ∀ e, d ≤ e → chargeFraction d ≤ chargeFraction e := by
    intro e he
    unfold chargeFraction
    exact min_le_min ((div_le_div_right hpos).mpr he) le_rfl
  refine ⟨rfl, hfrac0, hfrac1, rfl, ?_, ?_, ?_, ?_, ?_⟩
  · unfold launchPowerOf MIN_LAUNCH_FORCE MAX_LAUNCH_FORCE
    unfold MIN_LAUNCH_FORCE at hfrac0
    nlinarith
  · unfold launchPowerOf MIN_LAUNCH_FORCE MAX_LAUNCH_FORCE
    nlinarith
  · intro e he
    have h := hmonof e he
    unfold launchPowerOf MIN_LAUNCH_FORCE MAX_LAUNCH_FORCE
    nlinarith
  · intro hsat
    have h1 : (1 : ℚ) ≤ d / MAX_CHARGE_TIME := by
      rw [le_div_iff hpos]
      linarith
    unfold launchPowerOf chargeFraction
    rw [min_eq_right h1]
    norm_num [MIN_LAUNCH_FORCE, MAX_LAUNCH_FORCE]
  · intro st a ha
    exact applyCharging_launchPower d st a ha

/-- Witness for C2 at the concrete over-long hold `d = 2000 ms`. -/
theorem C2_witness :
    launchPowerOf 2000 = MAX_LAUNCH_FORCE ∧
    0 ≤ chargeFraction 2000 ∧ chargeFraction 2000 ≤ 1 := by
  have h := C2_charge_power_clamped_and_monotone 2000 (by norm_num)
  exact ⟨h.2.2.2.2.2.2.2.1 (by norm_num [MAX_CHARGE_TIME]), h.2.1, h.2.2.1⟩

/-- C3: at every `CHARGING → BALL_ROLLING` transition (spacebar released),
the launch direction computed from the frozen aim angle `a` is the unit
vector `(-sin a, 0, cos a)` — zero vertical component — and the impulse
handed to `applyImpulse` is this direction scaled by the current launch
power, so its magnitude equals the launch power; for `a = 0` the direction
is `(0, 0, 1)`. -/
theorem C3_launch_impulse_direction_and_magnitude (st : Game) (b : Ball)
    (hph : st.phase = .CHARGING) (hb : st.ball = some b) (him : b.impostor = true)
    (hp : 0 ≤ st.launchPower) :
    launchDirection st.aimAngle = ⟨-Real.sin st.aimAngle, 0, Real.cos st.aimAngle⟩ ∧
    (launchDirection st.aimAngle).y = 0 ∧
    (launchDirection st.aimAngle).len = 1 ∧
    launchDirection 0 = ⟨0, 0, 1⟩ ∧
    (keyupSpace st).phase = .BALL_ROLLING ∧
    (keyupSpace st).lastImpulse =
      some ((launchDirection st.aimAngle).scale (st.launchPower : ℝ)) ∧
    ((launchDirection st.aimAngle).scale (st.launchPower : ℝ)).len = (st.launchPower : ℝ) := by
  refine ⟨launchDirection_eq st.aimAngle, ?_, launchDirection_len st.aimAngle, ?_, ?_, ?_, ?_⟩
  · rw [launchDirection_eq]
  · rw [launchDirection_eq 0]
    simp
  · rw [keyupSpace_acts st hph]
  · rw [keyupSpace_acts st hph]
    show launchImpulseOf st.ball st.aimAngle st.launchPower = _
    rw [hb]
    simp [launchImpulseOf, him]
  · rw [len_scale, launchDirection_len, mul_one]
    exact abs_of_nonneg (by exact_mod_cast hp)

/-- Witness for C3 at a concrete charging state (aim angle `0`, minimum
power). -/
theorem C3_witness :
    (keyupSpace sampleCharging).phase = .BALL_ROLLING ∧
    launchDirection 0 = ⟨0, 0, 1⟩ ∧
    ((launchDirection sampleCharging.aimAngle).scale (sampleCharging.launchPower : ℝ)).len =
      (sampleCharging.launchPower : ℝ) := by
  have h := C3_launch_impulse_direction_and_magnitude sampleCharging sampleBall rfl rfl rfl
    (by norm_num [sampleCharging, initialG, MIN_LAUNCH_FORCE])
  exact ⟨h.2.2.2.2.1, h.2.2.2.1, h.2.2.2.2.2.2⟩

theorem tickG_score (now : ℚ) (obs : List PinObs) (lv av : Option Vec3Q) (st : Game) :
    (tickG now obs lv av st).score =
      st.score + (if st.phase = .BALL_ROLLING
        then (newlyFallen st.fallen 0 (obs.take st.pins.length)).length else 0) := by
  cases hph : st.phase
  · rw [tickG_aiming now obs lv av st hph, tickAiming_score]
    simp [hph]
  · rw [tickG_charging now obs lv av st hph]
    unfold tickCharging
    rw [applyCharging_score]
    simp [hph]
  · rw [tickG_rolling now obs lv av st hph, tickRolling_score]
    simp [hph]
  · rw [tickG_resetting now obs lv av st hph]
    simp [hph]
  · rw [tickG_ended now obs lv av st hph]
    simp [hph]

theorem tickG_fallen_subset (now : ℚ) (obs : List PinObs) (lv av : Option Vec3Q) (st : Game) :
    st.fallen ⊆ (tickG now obs lv av st).fallen := by
  cases hph : st.phase
  · rw [tickG_aiming now obs lv av st hph, tickAiming_fallen]
  · rw [tickG_charging now obs lv av st hph]
    unfold tickCharging
    rw [applyCharging_fallen]
  · rw [tickG_rolling now obs lv av st hph, tickRolling_fallen]
    exact Finset.subset_union_left
  · rw [tickG_resetting now obs lv av st hph]
  · rw [tickG_ended now obs lv av st hph]

/-- C4: at every reachable state the fallen set holds at most ten pin
indices; the scoring pass only ever adds indices (so within a throw the set
never loses an element); it is emptied exactly by the throw-start resets —
the per-throw reset (also when invoked by the settle timer) and the full
reset — and is left untouched by every other operation. -/
theorem C4_fallen_set_bounded_monotone_cleared_at_throw_start :
    (∀ st, Reachable st → st.fallen.card ≤ 10) ∧
    (∀ (st : Game) (obs : List PinObs), st.fallen ⊆ (checkFallenPinsG st obs).fallen) ∧
    (∀ (now : ℚ) (obs : List PinObs) (lv av : Option Vec3Q) (st : Game),
      st.fallen ⊆ (tickG now obs lv av st).fallen) ∧
    (∀ (now : ℚ) (st : Game),
      (resetForNextThrow now st).fallen = (∅ : Finset ℕ) ∧
      (resetGame now st).fallen = (∅ : Finset ℕ) ∧
      (fireResetTimer now st).fallen = (∅ : Finset ℕ)) ∧
    (∀ (now : ℚ) (st : Game), (keydownSpace now st).fallen = st.fallen) ∧
    (∀ st : Game, (keyupSpace st).fallen = st.fallen) ∧
    (∀ st : Game, (fireAimTimer st).fallen = st.fallen) := by
  refine ⟨?_, ?_, ?_, ?_, ?_, ?_, ?_⟩
  · intro st hr
    obtain ⟨-, hfall, -, -, -⟩ := reachable_inv hr
    calc st.fallen.card ≤ (Finset.range 10).card := Finset.card_le_card hfall
      _ = 10 := Finset.card_range 10
  · intro st obs
    rw [checkFallenPinsG_fallen]
    exact Finset.subset_union_left
  · exact fun now obs lv av st => tickG_fallen_subset now obs lv av st
  · exact fun now st => ⟨resetForNextThrow_fallen now st, resetGame_fallen now st,
      fireResetTimer_fallen now st⟩
  · exact fun now st => keydownSpace_fallen now st
  · exact fun st => keyupSpace_fallen st
  · exact fun st => fireAimTimer_fallen st

/-- Witness for C4 at the concrete initial state and a concrete reset. -/
theorem C4_witness :
    (resetGame 0 initialG).fallen.card ≤ 10 ∧
    (resetForNextThrow 0 sampleRolling).fallen = (∅ : Finset ℕ) :=
  ⟨C4_fallen_set_bounded_monotone_cleared_at_throw_start.1 _ (Reachable.init 0),
   (C4_fallen_set_bounded_monotone_cleared_at_throw_start.2.2.2.1 0 sampleRolling).1⟩

/-- C5: the score (a natural number, hence non-negative) never decreases
across any event except by being set to zero; it is set to zero only by the
full session reset (`resetGame`, reached through the `R` key); every other
operation leaves it unchanged, except a rolling tick which increments it by
exactly the count of newly fallen pins detected in that tick. -/
theorem C5_score_monotone_zeroed_only_by_full_reset :
    (∀ st st' : Game, Step st st' → st.score ≤ st'.score ∨ st'.score = 0) ∧
    (∀ (now : ℚ) (obs : List PinObs) (lv av : Option Vec3Q) (st : Game),
      (tickG now obs lv av st).score =
        st.score + (if st.phase = .BALL_ROLLING
          then (newlyFallen st.fallen 0 (obs.take st.pins.length)).length else 0)) ∧
    (∀ (now : ℚ) (st : Game), (resetForNextThrow now st).score = st.score) ∧
    (∀ (now : ℚ) (st : Game), (fireResetTimer now st).score = st.score) ∧
    (∀ (now : ℚ) (st : Game), (keydownSpace now st).score = st.score) ∧
    (∀ st : Game, (keyupSpace st).score = st.score) ∧
    (∀ st : Game, (fireAimTimer st).score = st.score) ∧
    (∀ (now : ℚ) (st : Game), (resetGame now st).score = 0) ∧
    (∀ (now : ℚ) (st : Game), st.phase ≠ .RESETTING → (keyupR now st).score = 0) ∧
    (∀ (now : ℚ) (st : Game), st.phase = .RESETTING → (keyupR now st).score = st.score) := by
  have hkr0 : ∀ (now : ℚ) (st : Game), st.phase ≠ .RESETTING → (keyupR now st).score = 0 := by
    intro now st h
    rw [keyupR_acts now st h, resetGame_score]
  have hkr1 : ∀ (now : ℚ) (st : Game), st.phase = .RESETTING → (keyupR now st).score = st.score := by
    intro now st h
    rw [keyupR_noop now st h]
  refine ⟨?_, tickG_score, fun now st => resetForNextThrow_score now st,
    fun now st => fireResetTimer_score now st, fun now st => keydownSpace_score now st,
    fun st => keyupSpace_score st, fun st => fireAimTimer_score st,
    fun now st => resetGame_score now st, hkr0, hkr1⟩
  intro st st' hs
  cases hs with
  | tick now obs lv av hobs =>
      left
      rw [tickG_score]
      exact Nat.le_add_right _ _
  | keydown now =>
      left
      rw [keydownSpace_score]
  | keyupSp =>
      left
      rw [keyupSpace_score]
  | keyR now =>
      by_cases h : st.phase = .RESETTING
      · left
        rw [hkr1 now st h]
      · right
        exact hkr0 now st h
  | fireSettle now d hd hle =>
      left
      rw [fireResetTimer_score]
  | fireAim now d hd hle =>
      left
      rw [fireAimTimer_score]

/-- Witness for C5 at a concrete step from the initial state (a keydown
while `RESETTING`, a no-op) and a concrete stale `R` press. -/
theorem C5_witness :
    (traceG1.score ≤ (keydownSpace 5 traceG1).score ∨ (keydownSpace 5 traceG1).score = 0) ∧
    (keyupR 5 traceG1).score = traceG1.score :=
  ⟨C5_score_monotone_zeroed_only_by_full_reset.1 traceG1 _ (Step.keydown traceG1 5),
   C5_score_monotone_zeroed_only_by_full_reset.2.2.2.2.2.2.2.2.2 5 traceG1 rfl⟩

/-- C6: on every tick in the `AIMING` phase (with the arrow present) the aim
angle is recomputed as `sin(t · 1.5) · (π/6)` of the absolute elapsed time
`t = now/1000`, hence always lies in `[-π/6, π/6]`; on no tick in
`CHARGING` or `BALL_ROLLING` is it recomputed, the keydown that starts
charging leaves it untouched, and the value frozen at the start of charging
is exactly the angle fed to the launch-impulse computation. -/
theorem C6_aim_angle_recomputed_only_while_aiming :
    (∀ (now : ℚ) (obs : List PinObs) (lv av : Option Vec3Q) (st : Game) (a : Arrow),
      st.phase = .AIMING → st.arrow = some a →
        (tickG now obs lv av st).aimAngle = oscillation (now / 1000) ∧
        oscillation (now / 1000) =
          Real.sin (((now / 1000 : ℚ) : ℝ) * ((ARROW_OSCILLATION_SPEED : ℚ) : ℝ)) *
            ARROW_MAX_ANGLE ∧
        |(tickG now obs lv av st).aimAngle| ≤ ARROW_MAX_ANGLE) ∧
    (∀ (now : ℚ) (obs : List PinObs) (lv av : Option Vec3Q) (st : Game),
      st.phase = .CHARGING ∨ st.phase = .BALL_ROLLING →
        (tickG now obs lv av st).aimAngle = st.aimAngle) ∧
    (∀ (now : ℚ) (st : Game), (keydownSpace now st).aimAngle = st.aimAngle) ∧
    (∀ st : Game, (keyupSpace st).aimAngle = st.aimAngle) ∧
    (∀ st : Game, st.phase = .CHARGING →
      (keyupSpace st).lastImpulse = launchImpulseOf st.ball st.aimAngle st.launchPower) := by
  refine ⟨?_, ?_, fun now st => keydownSpace_aimAngle now st,
    fun st => keyupSpace_aimAngle st, ?_⟩
  · intro now obs lv av st a hph ha
    have hang : (tickG now obs lv av st).aimAngle = oscillation (now / 1000) := by
      rw [tickG_aiming now obs lv av st hph]
      exact tickAiming_aimAngle now st a ha
    refine ⟨hang, rfl, ?_⟩
    rw [hang]
    exact oscillation_abs_le (now / 1000)
  · intro now obs lv av st hph
    rcases hph with hph | hph
    · rw [tickG_charging now obs lv av st hph]
      unfold tickCharging
      rw [applyCharging_aimAngle]
    · rw [tickG_rolling now obs lv av st hph, tickRolling_aimAngle]
  · intro st hph
    rw [keyupSpace_acts st hph]

/-- Witness for C6 at a concrete aiming state ticked at time `0`. -/
theorem C6_witness :
    (tickG 0 [] none none sampleAiming).aimAngle = oscillation (0 / 1000) ∧
    |(tickG 0 [] none none sampleAiming).aimAngle| ≤ ARROW_MAX_ANGLE := by
  have h := (C6_aim_angle_recomputed_only_while_aiming.1 0 [] none none sampleAiming
    initialArrow rfl rfl)
  exact ⟨h.1, h.2.2⟩

/-- C7: the per-throw reset zeroes the ball's linear and angular velocity
and repositions it to the start pose, resets the aim indicator to the fixed
start pose, clears the fallen set, restores the launch power to the minimum
force and the aim angle to `0`, enters `RESETTING` and schedules the fixed
100 ms delayed transition whose firing (while still `RESETTING`) lands in
`AIMING` — while leaving the score and the pins untouched. -/
theorem C7_per_throw_reset_frame_effect (now : ℚ) (st : Game) (b : Ball) (a : Arrow)
    (hb : st.ball = some b) (him : b.impostor = true) (ha : st.arrow = some a) :
    (resetForNextThrow now st).ball =
      some { pos := BALL_START_POS, linVel := Vec3Q.zero, angVel := Vec3Q.zero,
             impostor := b.impostor } ∧
    (resetForNextThrow now st).arrow =
      some { rotZ := 0, scaleY := ARROW_LENGTH_MIN, pos := ARROW_START_POS,
             visible := true } ∧
    (resetForNextThrow now st).fallen = (∅ : Finset ℕ) ∧
    (resetForNextThrow now st).launchPower = MIN_LAUNCH_FORCE ∧
    (resetForNextThrow now st).aimAngle = 0 ∧
    (resetForNextThrow now st).phase = .RESETTING ∧
    (now + 100) ∈ (resetForNextThrow now st).aimTimers ∧
    (resetForNextThrow now st).score = st.score ∧
    (resetForNextThrow now st).pins = st.pins ∧
    (∀ st2 : Game, st2.phase = .RESETTING → (fireAimTimer st2).phase = .AIMING) := by
  refine ⟨?_, ?_, rfl, rfl, rfl, rfl, ?_, rfl, rfl, ?_⟩
  · rw [resetForNextThrow_ball, hb]
    simp [resetBall, him]
  · rw [resetForNextThrow_arrow, ha]
    simp [resetArrowA]
  · rw [resetForNextThrow_aimTimers]
    exact List.mem_cons_self _ _
  · intro st2 hph
    rw [fireAimTimer_acts st2 hph]

/-- Witness for C7 at a concrete rolling state with the standard ball and
arrow, reset at time `7`. -/
theorem C7_witness :
    (resetForNextThrow 7 sampleRolling).phase = .RESETTING ∧
    (resetForNextThrow 7 sampleRolling).score = sampleRolling.score ∧
    (resetForNextThrow 7 sampleRolling).pins = sampleRolling.pins ∧
    (resetForNextThrow 7 sampleRolling).ball =
      some { pos := BALL_START_POS, linVel := Vec3Q.zero, angVel := Vec3Q.zero,
             impostor := sampleBall.impostor } := by
  have h := C7_per_throw_reset_frame_effect 7 sampleRolling sampleBall initialArrow rfl rfl rfl
  exact ⟨h.2.2.2.2.2.1, h.2.2.2.2.2.2.2.1, h.2.2.2.2.2.2.2.2.1, h.1⟩

/-- C8: while rolling, the ball counts as stopped exactly when both its
linear and angular squared velocity magnitudes are below the threshold
`0.1`; a per-throw reset is scheduled (500 ms out) only when the ball reads
stopped and no settle timer is already outstanding, an outstanding timer is
never replaced, and a tick that sees the ball moving cancels the pending
timer without any phase transition; from a rolling state with no pending
timer, no event other than the explicit `R`-key full reset can leave the
`BALL_ROLLING` phase, so polling simply resumes. -/
theorem C8_settle_detection_is_debounced :
    (∀ (b : Ball) (lv av : Vec3Q), b.impostor = true →
      (isBallStopped (some b) (some lv) (some av) = true ↔
        lv.lengthSquared < STOP_THRESHOLD ∧ av.lengthSquared < STOP_THRESHOLD)) ∧
    (∀ (now : ℚ) (obs : List PinObs) (lv av : Option Vec3Q) (st : Game),
      st.phase = .BALL_ROLLING →
        (isBallStopped st.ball lv av = true → st.resetTimer = none →
          (tickG now obs lv av st).resetTimer = some (now + 500)) ∧
        (∀ d, isBallStopped st.ball lv av = true → st.resetTimer = some d →
          (tickG now obs lv av st).resetTimer = some d) ∧
        (isBallStopped st.ball lv av = false →
          (tickG now obs lv av st).resetTimer = none ∧
          (tickG now obs lv av st).phase = .BALL_ROLLING)) ∧
    (∀ st st' : Game, Reachable st → st.phase = .BALL_ROLLING → st.resetTimer = none →
      Step st st' → st'.phase = .BALL_ROLLING ∨ ∃ now, st' = keyupR now st) := by
  refine ⟨?_, ?_, ?_⟩
  · intro b lv av him
    simp [isBallStopped, him]
  · intro now obs lv av st hph
    refine ⟨?_, ?_, ?_⟩
    · intro hstop hnone
      rw [tickG_rolling now obs lv av st hph]
      exact tickRolling_resetTimer_schedules now obs lv av st hstop hnone
    · intro d hstop hsome
      rw [tickG_rolling now obs lv av st hph]
      exact tickRolling_resetTimer_keeps now obs lv av st d hstop hsome
    · intro hmove
      rw [tickG_rolling now obs lv av st hph]
      exact ⟨tickRolling_resetTimer_cancels now obs lv av st hmove,
        by rw [tickRolling_phase]; exact hph⟩
  · intro st st' hr hph hnone hs
    cases hs with
    | tick now obs lv av hobs =>
        left
        rw [tickG_phase]
        exact hph
    | keydown now =>
        left
        rw [keydownSpace_noop now st (by rw [hph]; simp)]
        exact hph
    | keyupSp =>
        left
        rw [keyupSpace_noop st (by rw [hph]; simp)]
        exact hph
    | keyR now =>
        right
        exact ⟨now, rfl⟩
    | fireSettle now d hd hle =>
        rw [hnone] at hd
        cases hd
    | fireAim now d hd hle =>
        obtain ⟨-, -, -, hat, -⟩ := reachable_inv hr
        have hc := hat (List.ne_nil_of_mem hd)
        rw [hph] at hc
        simp at hc

/-- Witness for C8 at a concrete rolling state observed moving (velocity
`(1,0,0)`, squared magnitude `1 ≥ 0.1`). -/
theorem C8_witness :
    (isBallStopped (some sampleBall) (some ⟨1, 0, 0⟩) (some ⟨1, 0, 0⟩) = true ↔
      Vec3Q.lengthSquared ⟨1, 0, 0⟩ < STOP_THRESHOLD ∧
        Vec3Q.lengthSquared ⟨1, 0, 0⟩ < STOP_THRESHOLD) ∧
    (tickG 0 uprightRack (some ⟨1, 0, 0⟩) (some ⟨1, 0, 0⟩) sampleRolling).resetTimer = none ∧
    (tickG 0 uprightRack (some ⟨1, 0, 0⟩) (some ⟨1, 0, 0⟩) sampleRolling).phase =
      .BALL_ROLLING := by
  have hmove : isBallStopped sampleRolling.ball (some ⟨1, 0, 0⟩) (some ⟨1, 0, 0⟩) = false := by
    show isBallStopped (some sampleBall) (some ⟨1, 0, 0⟩) (some ⟨1, 0, 0⟩) = false
    simp only [isBallStopped, sampleBall, Vec3Q.lengthSquared, STOP_THRESHOLD]
    norm_num
  have h := (C8_settle_detection_is_debounced.2.1 0 uprightRack (some ⟨1, 0, 0⟩)
    (some ⟨1, 0, 0⟩) sampleRolling rfl).2.2 hmove
  exact ⟨C8_settle_detection_is_debounced.1 sampleBall ⟨1, 0, 0⟩ ⟨1, 0, 0⟩ rfl, h.1, h.2⟩

/-- C9: a deferred reset callback that fires after its invalidation
condition is a no-op.  The 100 ms `RESETTING → AIMING` callback guards on
the current phase and changes nothing when the phase is no longer
`RESETTING`; the 500 ms settle callback can never fire stale, because in
every reachable state a pending settle timer implies the phase is still
`BALL_ROLLING` (cancellation on resumed motion and on the explicit full
reset removes it before any phase change); the explicit full reset clears
any pending settle timer. -/
theorem C9_stale_reset_callbacks_are_noops :
    (∀ st : Game, st.phase ≠ .RESETTING → fireAimTimer st = st) ∧
    (∀ st : Game, Reachable st → ∀ d, st.resetTimer = some d →
      st.phase = .BALL_ROLLING) ∧
    (∀ (now : ℚ) (st : Game), st.phase ≠ .RESETTING → (keyupR now st).resetTimer = none) := by
  refine ⟨fun st h => fireAimTimer_noop st h, ?_, ?_⟩
  · intro st hr d hd
    exact (reachable_inv hr).2.2.1 d hd
  · intro now st h
    rw [keyupR_acts now st h, resetGame_resetTimer]

/-- Witness for C9: the aim callback is a no-op at a concrete rolling state,
and along a concrete reachable trace a pending settle timer coexists only
with the `BALL_ROLLING` phase. -/
theorem C9_witness :
    fireAimTimer traceG4 = traceG4 ∧ traceG5.phase = .BALL_ROLLING := by
  constructor
  · exact C9_stale_reset_callbacks_are_noops.1 traceG4 (by rw [traceG4_phase]; simp)
  · exact C9_stale_reset_callbacks_are_noops.2.1 traceG5 reachable_traceG5 1100 traceG5_resetTimer

/-- C10: when the ball or its physics impostor is absent, `isBallStopped`
returns `true` — so a rolling tick with no ball present schedules the
per-throw settle reset — whereas a null vector from either velocity
accessor makes `isBallStopped` falsy (not stopped). -/
theorem C10_missing_ball_stopped_null_velocity_moving :
    (∀ lv av : Option Vec3Q, isBallStopped none lv av = true) ∧
    (∀ (b : Ball) (lv av : Option Vec3Q),
      isBallStopped (some { b with impostor := false }) lv av = true) ∧
    (∀ (b : Ball) (av : Option Vec3Q),
      isBallStopped (some { b with impostor := true }) none av = false) ∧
    (∀ (b : Ball) (lv : Vec3Q),
      isBallStopped (some { b with impostor := true }) (some lv) none = false) ∧
    (∀ (now : ℚ) (obs : List PinObs) (lv av : Option Vec3Q) (st : Game),
      st.phase = .BALL_ROLLING → st.ball = none → st.resetTimer = none →
        (tickG now obs lv av st).resetTimer = some (now + 500)) := by
  refine ⟨fun lv av => rfl, ?_, ?_, ?_, ?_⟩
  · intro b lv av
    simp [isBallStopped]
  · intro b av
    simp [isBallStopped]
  · intro b lv
    simp [isBallStopped]
  · intro now obs lv av st hph hb hnone
    rw [tickG_rolling now obs lv av st hph]
    refine tickRolling_resetTimer_schedules now obs lv av st ?_ hnone
    rw [hb]
    rfl

/-- Witness for C10: a rolling tick at a concrete state with no ball in the
scene schedules the settle reset. -/
theorem C10_witness :
    isBallStopped none (some Vec3Q.zero) none = true ∧
    (tickG 3 uprightRack none none sampleNoBall).resetTimer = some (3 + 500) := by
  constructor
  · exact C10_missing_ball_stopped_null_velocity_moving.1 (some Vec3Q.zero) none
  · exact C10_missing_ball_stopped_null_velocity_moving.2.2.2.2 3 uprightRack none none
      sampleNoBall rfl rfl rfl

end BowlingFun
